import Mathlib

/-!
Verification of the simple-http-server repository (src/src/main.rs) against its
natural-language specification.

The Rust source is shallowly embedded over `List Char`: a Rust `&str`/`String`
becomes a `List Char`, byte lengths are computed with `Char.utf8Size`, and the
standard-library string iterators used by the code (`str::lines`,
`str::split_whitespace`, `str::split_once`, `Vec::join`) are re-implemented
below, faithful to their documented Rust semantics.  The `HashMap` of headers
is modelled as an insertion-ordered association list whose lookup takes the
last matching entry (insert-last-wins, exactly the observable behaviour of
`HashMap::insert`).  Filesystem access (`Path::exists`, `fs::read_to_string`)
is passed in as an explicit `FileSystem` record, and socket I/O in
`handle_client` as an explicit read result.
-/

namespace SimpleHttpServer

/-- Rust `char::is_whitespace` (the Unicode `White_Space` property). -/
def isRustWhitespace (c : Char) : Bool :=
  c.val = 0x09 ∨ c.val = 0x0A ∨ c.val = 0x0B ∨ c.val = 0x0C ∨ c.val = 0x0D ∨
  c.val = 0x20 ∨ c.val = 0x85 ∨ c.val = 0xA0 ∨ c.val = 0x1680 ∨
  (0x2000 ≤ c.val ∧ c.val ≤ 0x200A) ∨ c.val = 0x2028 ∨ c.val = 0x2029 ∨
  c.val = 0x202F ∨ c.val = 0x205F ∨ c.val = 0x3000

/-- Strip one trailing carriage return, as `str::lines` does at the end of a
`\r\n`-terminated line. -/
def stripCR (l : List Char) : List Char :=
  if l.getLast? = some '\r' then l.dropLast else l

/-- Worker for `rustLines`: `acc` holds the current line, reversed. -/
def rustLinesAux : List Char → List Char → List (List Char)
  | acc, [] => if acc = [] then [] else [acc.reverse]
  | acc, c :: rest =>
    if c = '\n' then stripCR acc.reverse :: rustLinesAux [] rest
    else rustLinesAux (c :: acc) rest

/-- Rust `str::lines`: lines are terminated by `\n` or `\r\n`; the final
line needs no terminator; a trailing `\r` on an unterminated final line is
kept. -/
def rustLines (s : List Char) : List (List Char) :=
  rustLinesAux [] s

/-- Worker for `splitWhitespace`: `acc` holds the current token, reversed. -/
def splitWhitespaceAux : List Char → List Char → List (List Char)
  | acc, [] => if acc = [] then [] else [acc.reverse]
  | acc, c :: rest =>
    if isRustWhitespace c then
      if acc = [] then splitWhitespaceAux [] rest
      else acc.reverse :: splitWhitespaceAux [] rest
    else splitWhitespaceAux (c :: acc) rest

/-- Rust `str::split_whitespace`: maximal non-whitespace runs, never an
empty token. -/
def splitWhitespace (s : List Char) : List (List Char) :=
  splitWhitespaceAux [] s

/-- Rust `str::split_once(": ")`: split at the first occurrence of the
two-character separator `": "`, or `none` when it does not occur. -/
def splitOnceColonSpace : List Char → Option (List Char × List Char)
  | [] => none
  | [_] => none
  | c1 :: c2 :: rest =>
    if c1 = ':' ∧ c2 = ' ' then some ([], rest)
    else (splitOnceColonSpace (c2 :: rest)).map (fun p => (c1 :: p.1, p.2))

/-- Rust `Vec::<&str>::join("\n")`. -/
def joinNL : List (List Char) → List Char
  | [] => []
  | [l] => l
  | l :: rest => l ++ '\n' :: joinNL rest

/-- Headers are an insertion-ordered association list; `HashMap::insert`
appends, and lookup takes the last matching entry (last occurrence wins). -/
def findHeader : List (List Char × List Char) → List Char → Option (List Char)
  | [], _ => none
  | kv :: rest, key =>
    match findHeader rest key with
    | some v => some v
    | none => if kv.1 = key then some kv.2 else none

/-- The parsed request model (`struct HttpRequest` in main.rs). -/
structure HttpRequest where
  method : List Char
  path : List Char
  version : List Char
  headers : List (List Char × List Char)
  body : List Char
deriving DecidableEq, Repr

/-- The header loop of `HttpRequest::from_raw`: consume `Key: Value` lines
until the first empty line (consumed) or end of input, skipping lines that do
not split on `": "`; returns the headers read so far and the remaining lines. -/
def parseHeadersAux (hs : List (List Char × List Char)) :
    List (List Char) → List (List Char × List Char) × List (List Char)
  | [] => (hs, [])
  | l :: rest =>
    if l = [] then (hs, rest)
    else
      match splitOnceColonSpace l with
      | some kv => parseHeadersAux (hs ++ [kv]) rest
      | none => parseHeadersAux hs rest

/-- Parser `HttpRequest::from_raw` (main.rs lines 20–49): split into lines, parse the
request line by whitespace into up to three tokens (missing tokens become
empty), consume `Key: Value` header lines until a blank line, and join all
remaining lines with `"\n"` as the body. -/
def HttpRequest.from_raw (request : List Char) : HttpRequest :=
  let lines := rustLines request
  let request_line := lines.headD []
  let parts := splitWhitespace request_line
  let method := parts.getD 0 []
  let path := parts.getD 1 []
  let version := parts.getD 2 []
  let hrest := parseHeadersAux [] (lines.drop 1)
  { method := method
    path := path
    version := version
    headers := hrest.1
    body := joinNL hrest.2 }

/-- Byte length in UTF-8 of a string, Rust `str::len`. -/
def utf8Len (s : List Char) : Nat :=
  (s.map Char.utf8Size).sum

/-- Decimal digit character, for rendering `usize` with `Display`. -/
def digitOf (d : Nat) : Char :=
  Char.ofNat (48 + d % 10)

/-- Fuel driven worker for `natDigits`; `fuel ≥ n + 1` always suffices since
`n / 10 < n` for `n ≥ 10`. -/
def natDigitsAux : Nat → Nat → List Char
  | 0, _ => []
  | fuel + 1, n =>
    if n < 10 then [digitOf n]
    else natDigitsAux fuel (n / 10) ++ [digitOf (n % 10)]

/-- Decimal rendering of a `usize`, Rust `Display` for integers. -/
def natDigits (n : Nat) : List Char :=
  natDigitsAux (n + 1) n

/-- Serializer `format_response` (main.rs lines 162–168): the fixed wire format
`HTTP/1.1 <status>\r\nContent-Length: <len>\r\nContent-Type: <type>\r\n\r\n<body>`
where `<len>` is the byte length of the body. -/
def format_response (status body content_type : List Char) : List Char :=
  "HTTP/1.1 ".data ++ status ++
  "\r\nContent-Length: ".data ++ natDigits (utf8Len body) ++
  "\r\nContent-Type: ".data ++ content_type ++
  "\r\n\r\n".data ++ body

/-- Router `handle_api_request` (main.rs lines 126–137): exact match on
`/api/hello`, everything else is the fixed JSON 404. -/
def handle_api_request (request : HttpRequest) : List Char :=
  if request.path = "/api/hello".data then
    format_response "200 Ok".data "\x7b\"message\":\"Hello ,Api\"\x7d".data
      "application/json".data
  else
    format_response "404 Not Found".data "\x7b\"error\":\"Not found\"\x7d".data
      "application/json".data

/-- The filesystem as seen by `handle_request`: `Path::exists` and
`fs::read_to_string` (`none` models `Err`). -/
structure FileSystem where
  pathExists : List Char → Bool
  read_to_string : List Char → Option (List Char)

/-- The file path `handle_request` resolves a request path to:
`public<path>`, with `public/` rewritten to `public/index.html`. -/
def resolvedPath (path : List Char) : List Char :=
  let file_path := "public".data ++ path
  if file_path = "public/".data then "public/index.html".data else file_path

/-- The fixed 404 page of the filesystem router (note the `text/htlm`
content type, as in the source). -/
def notFoundHtmlResponse : List Char :=
  format_response "404 Not Found".data "<h1>404 - Page Not Found </h1>".data
    "text/htlm".data

/-- Router `handle_request` (main.rs lines 139–160): `/api/`-prefixed paths go to the
JSON sub-router; otherwise the resolved file is served as `text/html` when it
exists and reads successfully, and the fixed 404 page is returned otherwise. -/
def handle_request (fs : FileSystem) (request : HttpRequest) : List Char :=
  if "/api/".data.isPrefixOf request.path then handle_api_request request
  else
    let file_path := resolvedPath request.path
    if fs.pathExists file_path then
      match fs.read_to_string file_path with
      | some contents => format_response "200 Ok".data contents "text/html".data
      | none => notFoundHtmlResponse
    else notFoundHtmlResponse

/-- Handler `handle_client` (main.rs lines 170–181): a read result of `none` models a failed
`stream.read`, in which case nothing is written; otherwise the bytes read are
parsed and the routed response is written back. -/
def handle_client (fs : FileSystem) (readResult : Option (List Char)) :
    Option (List Char) :=
  match readResult with
  | some bytes => some (handle_request fs (HttpRequest.from_raw bytes))
  | none => none

/-- True when the string contains a carriage return immediately followed by
a line feed. -/
def hasCRLF : List Char → Bool
  | [] => false
  | [_] => false
  | c1 :: c2 :: rest => (c1 = '\r' && c2 = '\n') || hasCRLF (c2 :: rest)

/-- True when the string contains the separator `": "`. -/
def hasColonSpace : List Char → Bool
  | [] => false
  | [_] => false
  | c1 :: c2 :: rest => (c1 = ':' && c2 = ' ') || hasColonSpace (c2 :: rest)

/-- No character of the string is Rust whitespace. -/
def noWhitespace (s : List Char) : Prop :=
  ∀ c ∈ s, isRustWhitespace c = false

instance (s : List Char) : Decidable (noWhitespace s) := by
  unfold noWhitespace; infer_instance

/-- The wire form of one header line (without its terminator). -/
def headerLine (kv : List Char × List Char) : List Char :=
  kv.1 ++ ':' :: ' ' :: kv.2

/-- A raw request of the spec's well-formed shape
`METHOD PATH VERSION\r\nKey: Value\r\n...\r\n\r\nBODY`. -/
def mkRaw (method path version : List Char)
    (hdrs : List (List Char × List Char)) (body : List Char) : List Char :=
  (method ++ ' ' :: path ++ ' ' :: version) ++ '\r' :: '\n' ::
    ((hdrs.map (fun kv => headerLine kv ++ ['\r', '\n'])).flatten ++
      '\r' :: '\n' :: body)

/-- State of the job queue and the execution log of the pool.  Jobs are
identified by numbers; `queue` is the mpsc channel's FIFO buffer, and
`executed` records, in order, which worker executed which job. -/
structure PoolState where
  queue : List Nat
  executed : List (Nat × Nat)
deriving DecidableEq, Repr

/-- The empty pool state: nothing queued, nothing executed. -/
def initialPool : PoolState :=
  { queue := [], executed := [] }

/-- Model of `ThreadPool::execute` (main.rs lines 71–76): `sender.send` appends the
job to the channel's buffer and returns without waiting. -/
def PoolState.execute (s : PoolState) (job : Nat) : PoolState :=
  { s with queue := s.queue ++ [job] }

/-- One iteration of a worker's loop (main.rs lines 86–103): under the
receiver's mutex, `recv` atomically removes the front job, which worker `w`
then runs; with an empty queue the worker just blocks (state unchanged). -/
def workerStep (w : Nat) (s : PoolState) : PoolState :=
  match s.queue with
  | [] => s
  | j :: rest => { queue := rest, executed := s.executed ++ [(w, j)] }

/-- Run a schedule of worker dequeue attempts, in order. -/
def runSteps (ws : List Nat) (s : PoolState) : PoolState :=
  ws.foldl (fun st w => workerStep w st) s

/-- Submit a list of jobs through `ThreadPool::execute`, in order. -/
def submitAll (jobs : List Nat) (s : PoolState) : PoolState :=
  jobs.foldl PoolState.execute s

/-- Modelled from the spec: the content of `public/index.html`, the root
path's default document.  The asset directory `public/` is not under src/;
the spec's route table gives `/` → 200 welcome text, with body
`Welcome to the Home Page!`. -/
def indexHtml : List Char :=
  "Welcome to the Home Page!".data

/-- Modelled from the spec: the static root directory holding only the
default document `public/index.html` (the `public/` directory is an asset of
the repository, not under src/). -/
def publicFs : FileSystem :=
  { pathExists := fun p => p = "public/index.html".data
    read_to_string := fun p =>
      if p = "public/index.html".data then some indexHtml else none }

/-! Helper lemmas on the embedded string primitives -/

theorem stripCR_concat (a : List Char) : stripCR (a ++ ['\r']) = a := by
  simp [stripCR]

theorem rustLinesAux_crlf (a b acc : List Char) (h : '\n' ∉ a) :
    rustLinesAux acc (a ++ '\r' :: '\n' :: b) =
      (acc.reverse ++ a) :: rustLinesAux [] b := by
  induction a generalizing acc with
  | nil =>
    have e1 : rustLinesAux acc ('\r' :: '\n' :: b) =
        rustLinesAux ('\r' :: acc) ('\n' :: b) := by
      simp [rustLinesAux]
    have e2 : rustLinesAux ('\r' :: acc) ('\n' :: b) =
        stripCR ('\r' :: acc).reverse :: rustLinesAux [] b := by
      simp [rustLinesAux]
    simp only [List.nil_append, e1, e2, List.reverse_cons, stripCR_concat]
    simp
  | cons c a ih =>
    have hc : c ≠ '\n' := fun hh => h (hh ▸ List.mem_cons_self c a)
    have ha : '\n' ∉ a := fun hh => h (List.mem_cons_of_mem c hh)
    simp only [List.cons_append, rustLinesAux, if_neg hc, List.append_eq]
    rw [ih (c :: acc) ha]
    simp

theorem rustLines_line (a b : List Char) (h : '\n' ∉ a) :
    rustLines (a ++ '\r' :: '\n' :: b) = a :: rustLines b := by
  simpa [rustLines] using rustLinesAux_crlf a b [] h

theorem hasCRLF_cons (c : Char) (l : List Char) (h : hasCRLF l = true) :
    hasCRLF (c :: l) = true := by
  cases l with
  | nil => simp [hasCRLF] at h
  | cons c2 r => simp [hasCRLF, h]

theorem hasCRLF_append_right (x y : List Char) (h : hasCRLF y = true) :
    hasCRLF (x ++ y) = true := by
  induction x with
  | nil => exact h
  | cons c x ih => exact hasCRLF_cons c (x ++ y) ih

theorem hasCRLF_suffix (x y : List Char) (h : hasCRLF (x ++ y) = false) :
    hasCRLF y = false := by
  by_contra hy
  rw [hasCRLF_append_right x y (by simpa using hy)] at h
  exact absurd h (by decide)

theorem endsCR_hasCRLF (x r : List Char) (h : x.getLast? = some '\r') :
    hasCRLF (x ++ '\n' :: r) = true := by
  induction x with
  | nil => simp at h
  | cons c x ih =>
    cases x with
    | nil =>
      simp at h
      subst h
      simp [hasCRLF]
    | cons c2 x2 =>
      have h2 : (c2 :: x2).getLast? = some '\r' := by
        rwa [List.getLast?_cons_cons] at h
      exact hasCRLF_cons c _ (ih h2)

theorem rustLinesAux_ne_nil_left (acc s : List Char) (h : acc ≠ []) :
    rustLinesAux acc s ≠ [] := by
  induction s generalizing acc with
  | nil => simp [rustLinesAux, h]
  | cons c rest ih =>
    by_cases hc : c = '\n'
    · simp [rustLinesAux, hc]
    · simp only [rustLinesAux, if_neg hc]
      exact ih (c :: acc) (by simp)

theorem rustLinesAux_ne_nil (acc s : List Char) (h : s ≠ []) :
    rustLinesAux acc s ≠ [] := by
  cases s with
  | nil => exact absurd rfl h
  | cons c rest =>
    by_cases hc : c = '\n'
    · simp [rustLinesAux, hc]
    · simp only [rustLinesAux, if_neg hc]
      exact rustLinesAux_ne_nil_left (c :: acc) rest (by simp)

theorem joinNL_cons_of_ne (l : List Char) (L : List (List Char)) (h : L ≠ []) :
    joinNL (l :: L) = l ++ '\n' :: joinNL L := by
  cases L with
  | nil => exact absurd rfl h
  | cons a L2 => rfl

theorem joinNL_rustLinesAux (s : List Char) :
    ∀ acc : List Char, hasCRLF (acc.reverse ++ s) = false →
      (acc.reverse ++ s).getLast? ≠ some '\n' →
      joinNL (rustLinesAux acc s) = acc.reverse ++ s := by
  induction s with
  | nil =>
    intro acc _ _
    by_cases ha : acc = []
    · subst ha; simp [rustLinesAux, joinNL]
    · simp [rustLinesAux, ha, joinNL]
  | cons c rest ih =>
    intro acc h1 h2
    by_cases hc : c = '\n'
    · subst hc
      have hnr : stripCR acc.reverse = acc.reverse := by
        unfold stripCR
        split
        case isTrue hlast =>
          rw [endsCR_hasCRLF acc.reverse rest hlast] at h1
          exact absurd h1 (by decide)
        case isFalse => rfl
      have hrest_ne : rest ≠ [] := by
        intro hr
        subst hr
        exact h2 (by simp)
      have h1' : hasCRLF rest = false := by
        have e : acc.reverse ++ '\n' :: rest = (acc.reverse ++ ['\n']) ++ rest := by
          simp
        rw [e] at h1
        exact hasCRLF_suffix _ _ h1
      have h2' : rest.getLast? ≠ some '\n' := by
        have e : acc.reverse ++ '\n' :: rest = (acc.reverse ++ ['\n']) ++ rest := by
          simp
        rw [e, List.getLast?_append_of_ne_nil _ hrest_ne] at h2
        exact h2
      have estep : rustLinesAux acc ('\n' :: rest) =
          acc.reverse :: rustLinesAux [] rest := by
        simp [rustLinesAux, hnr]
      rw [estep, joinNL_cons_of_ne _ _ (rustLinesAux_ne_nil [] rest hrest_ne)]
      rw [show joinNL (rustLinesAux [] rest) = rest from by
        simpa using ih [] (by simpa using h1') (by simpa using h2')]
    · have hlist : (c :: acc).reverse ++ rest = acc.reverse ++ c :: rest := by
        simp
      simp only [rustLinesAux, if_neg hc]
      rw [ih (c :: acc) (by rwa [hlist]) (by rwa [hlist]), hlist]

theorem joinNL_rustLines (s : List Char) (h1 : hasCRLF s = false)
    (h2 : s.getLast? ≠ some '\n') : joinNL (rustLines s) = s := by
  simpa [rustLines] using joinNL_rustLinesAux s [] (by simpa) (by simpa)

theorem splitWhitespaceAux_token (t : List Char) :
    ∀ acc rest : List Char, noWhitespace t → (acc ≠ [] ∨ t ≠ []) →
      splitWhitespaceAux acc (t ++ ' ' :: rest) =
        (acc.reverse ++ t) :: splitWhitespaceAux [] rest := by
  induction t with
  | nil =>
    intro acc rest _ hne
    have ha : acc ≠ [] := by tauto
    simp [splitWhitespaceAux, show isRustWhitespace ' ' = true from by decide, ha]
  | cons c t ih =>
    intro acc rest ht _
    have hcw : isRustWhitespace c = false := ht c (by simp)
    have ht' : noWhitespace t := fun x hx => ht x (by simp [hx])
    simp only [List.cons_append, splitWhitespaceAux, hcw, Bool.false_eq_true,
      if_false, List.append_eq]
    rw [ih (c :: acc) rest ht' (Or.inl (by simp))]
    simp

theorem splitWhitespaceAux_last (t : List Char) :
    ∀ acc : List Char, noWhitespace t → (acc ≠ [] ∨ t ≠ []) →
      splitWhitespaceAux acc t = [acc.reverse ++ t] := by
  induction t with
  | nil =>
    intro acc _ hne
    have ha : acc ≠ [] := by tauto
    simp [splitWhitespaceAux, ha]
  | cons c t ih =>
    intro acc ht _
    have hcw : isRustWhitespace c = false := ht c (by simp)
    have ht' : noWhitespace t := fun x hx => ht x (by simp [hx])
    simp only [splitWhitespaceAux, hcw, Bool.false_eq_true, if_false]
    rw [ih (c :: acc) ht' (Or.inl (by simp))]
    simp

theorem splitWhitespace_three (m p v : List Char)
    (hm : m ≠ []) (hmw : noWhitespace m) (hp : p ≠ []) (hpw : noWhitespace p)
    (hv : v ≠ []) (hvw : noWhitespace v) :
    splitWhitespace (m ++ ' ' :: (p ++ ' ' :: v)) = [m, p, v] := by
  unfold splitWhitespace
  rw [splitWhitespaceAux_token m [] (p ++ ' ' :: v) hmw (Or.inr hm)]
  rw [splitWhitespaceAux_token p [] v hpw (Or.inr hp)]
  rw [splitWhitespaceAux_last v [] hvw (Or.inr hv)]
  simp

theorem splitOnceColonSpace_mk (k v : List Char)
    (hk : hasColonSpace k = false) :
    splitOnceColonSpace (k ++ ':' :: ' ' :: v) = some (k, v) := by
  induction k with
  | nil => simp [splitOnceColonSpace]
  | cons c k ih =>
    cases k with
    | nil =>
      have hcond : ¬(c = ':' ∧ (':' : Char) = ' ') := by
        rintro ⟨_, h2⟩
        exact absurd h2 (by decide)
      simp [splitOnceColonSpace, hcond]
    | cons c2 k2 =>
      have hcc : ¬(c = ':' ∧ c2 = ' ') := by
        intro hand
        have : hasColonSpace (c :: c2 :: k2) = true := by
          simp [hasColonSpace, hand.1, hand.2]
        rw [this] at hk
        exact absurd hk (by decide)
      have hk2 : hasColonSpace (c2 :: k2) = false := by
        by_contra hcon
        have : hasColonSpace (c :: c2 :: k2) = true := by
          simp [hasColonSpace]
          simp at hcon
          tauto
        rw [this] at hk
        exact absurd hk (by decide)
      simp only [List.cons_append, splitOnceColonSpace, if_neg hcc,
        List.append_eq]
      rw [show (c2 :: k2) ++ ':' :: ' ' :: v = c2 :: (k2 ++ ':' :: ' ' :: v)
        from by simp] at ih
      rw [ih hk2]
      rfl

theorem headerLine_ne_nil (kv : List Char × List Char) : headerLine kv ≠ [] := by
  simp [headerLine]

theorem parseHeadersAux_header (hs : List (List Char × List Char))
    (kv : List Char × List Char) (rest : List (List Char))
    (h1 : hasColonSpace kv.1 = false) :
    parseHeadersAux hs (headerLine kv :: rest) =
      parseHeadersAux (hs ++ [kv]) rest := by
  simp only [parseHeadersAux, if_neg (headerLine_ne_nil kv)]
  rw [show splitOnceColonSpace (headerLine kv) = some (kv.1, kv.2) from
    splitOnceColonSpace_mk kv.1 kv.2 h1]

theorem parseHeadersAux_blank (hs : List (List Char × List Char))
    (tail : List (List Char)) :
    parseHeadersAux hs ([] :: tail) = (hs, tail) := by
  simp [parseHeadersAux]

theorem parseHeadersAux_lines (hdrs : List (List Char × List Char)) :
    ∀ (hs : List (List Char × List Char)) (tail : List (List Char)),
      (∀ kv ∈ hdrs, hasColonSpace kv.1 = false) →
      parseHeadersAux hs (hdrs.map headerLine ++ [] :: tail) =
        (hs ++ hdrs, tail) := by
  induction hdrs with
  | nil =>
    intro hs tail _
    simp [parseHeadersAux]
  | cons kv hdrs ih =>
    intro hs tail hh
    have h1 : hasColonSpace kv.1 = false := hh kv (by simp)
    have h2 : ∀ x ∈ hdrs, hasColonSpace x.1 = false :=
      fun x hx => hh x (by simp [hx])
    simp only [List.map_cons, List.cons_append]
    rw [parseHeadersAux_header hs kv _ h1, ih (hs ++ [kv]) tail h2]
    simp

theorem parseHeadersAux_no_blank (ls : List (List Char)) :
    ∀ hs : List (List Char × List Char), (∀ l ∈ ls, l ≠ []) →
      parseHeadersAux hs ls = (hs ++ ls.filterMap splitOnceColonSpace, []) := by
  induction ls with
  | nil =>
    intro hs _
    simp [parseHeadersAux]
  | cons l rest ih =>
    intro hs h
    have hl : l ≠ [] := h l (by simp)
    have h' : ∀ x ∈ rest, x ≠ [] := fun x hx => h x (by simp [hx])
    simp only [parseHeadersAux, if_neg hl]
    cases hsp : splitOnceColonSpace l with
    | none => simp [ih hs h', List.filterMap_cons, hsp]
    | some kv => simp [ih (hs ++ [kv]) h', List.filterMap_cons, hsp]

theorem findHeader_append (hs hs2 : List (List Char × List Char))
    (key : List Char) :
    findHeader (hs ++ hs2) key =
      match findHeader hs2 key with
      | some v => some v
      | none => findHeader hs key := by
  induction hs with
  | nil =>
    cases h : findHeader hs2 key <;> simp [findHeader, h]
  | cons kv hs ih =>
    cases h2 : findHeader hs2 key <;> cases h1 : findHeader hs key <;>
      simp [findHeader, ih, h1, h2]

theorem findHeader_eq_none (hs : List (List Char × List Char))
    (key : List Char) (h : ∀ kv ∈ hs, kv.1 ≠ key) :
    findHeader hs key = none := by
  induction hs with
  | nil => rfl
  | cons kv hs ih =>
    have h1 : kv.1 ≠ key := h kv (by simp)
    have h' : ∀ x ∈ hs, x.1 ≠ key := fun x hx => h x (by simp [hx])
    simp [findHeader, ih h', h1]

theorem findHeader_last_wins (pre suf : List (List Char × List Char))
    (key v : List Char) (h : ∀ kv ∈ suf, kv.1 ≠ key) :
    findHeader (pre ++ (key, v) :: suf) key = some v := by
  rw [findHeader_append pre ((key, v) :: suf) key]
  rw [show findHeader ((key, v) :: suf) key = some v from by
    simp [findHeader, findHeader_eq_none suf key h]]

theorem no_lf_of_noWhitespace (s : List Char) (h : noWhitespace s) :
    '\n' ∉ s :=
  fun hm => absurd (h '\n' hm) (by decide)

theorem headerLine_no_lf (kv : List Char × List Char)
    (h1 : '\n' ∉ kv.1) (h2 : '\n' ∉ kv.2) : '\n' ∉ headerLine kv := by
  intro hmem
  rcases List.mem_append.mp hmem with h | h
  · exact h1 h
  · rcases List.mem_cons.mp h with hc | h
    · exact absurd hc (by decide)
    · rcases List.mem_cons.mp h with hc | h
      · exact absurd hc (by decide)
      · exact h2 h

theorem requestLine_no_lf (m p v : List Char) (hmw : noWhitespace m)
    (hpw : noWhitespace p) (hvw : noWhitespace v) :
    '\n' ∉ m ++ ' ' :: (p ++ ' ' :: v) := by
  intro hmem
  rcases List.mem_append.mp hmem with h | h
  · exact no_lf_of_noWhitespace m hmw h
  · rcases List.mem_cons.mp h with hc | h
    · exact absurd hc (by decide)
    · rcases List.mem_append.mp h with h | h
      · exact no_lf_of_noWhitespace p hpw h
      · rcases List.mem_cons.mp h with hc | h
        · exact absurd hc (by decide)
        · exact no_lf_of_noWhitespace v hvw h

theorem rustLines_headers (hdrs : List (List Char × List Char)) :
    ∀ tail : List Char, (∀ kv ∈ hdrs, '\n' ∉ kv.1 ∧ '\n' ∉ kv.2) →
      rustLines ((hdrs.map (fun kv => headerLine kv ++ ['\r', '\n'])).flatten
          ++ tail) =
        hdrs.map headerLine ++ rustLines tail := by
  induction hdrs with
  | nil =>
    intro tail _
    simp
  | cons kv hdrs ih =>
    intro tail hh
    have h1 := hh kv (by simp)
    have h2 : ∀ x ∈ hdrs, '\n' ∉ x.1 ∧ '\n' ∉ x.2 :=
      fun x hx => hh x (by simp [hx])
    have hline : '\n' ∉ headerLine kv := headerLine_no_lf kv h1.1 h1.2
    simp only [List.map_cons, List.flatten_cons, List.append_assoc]
    have e : headerLine kv ++ (['\r', '\n'] ++
        ((hdrs.map (fun kv => headerLine kv ++ ['\r', '\n'])).flatten ++ tail))
        = headerLine kv ++ '\r' :: '\n' ::
          ((hdrs.map (fun kv => headerLine kv ++ ['\r', '\n'])).flatten
            ++ tail) := by
      simp
    rw [e, rustLines_line _ _ hline, ih tail h2]
    simp

theorem rustLines_mkRaw (m p v : List Char)
    (hdrs : List (List Char × List Char)) (body : List Char)
    (hreq : '\n' ∉ m ++ ' ' :: (p ++ ' ' :: v))
    (hh : ∀ kv ∈ hdrs, '\n' ∉ kv.1 ∧ '\n' ∉ kv.2) :
    rustLines (mkRaw m p v hdrs body) =
      (m ++ ' ' :: (p ++ ' ' :: v)) ::
        (hdrs.map headerLine ++ [] :: rustLines body) := by
  have e : mkRaw m p v hdrs body =
      (m ++ ' ' :: (p ++ ' ' :: v)) ++ '\r' :: '\n' ::
        ((hdrs.map (fun kv => headerLine kv ++ ['\r', '\n'])).flatten ++
          '\r' :: '\n' :: body) := by
    unfold mkRaw
    simp
  rw [e, rustLines_line _ _ hreq]
  rw [rustLines_headers hdrs ('\r' :: '\n' :: body) hh]
  rw [show rustLines ('\r' :: '\n' :: body) = [] :: rustLines body from
    rustLines_line [] body (by simp)]

theorem from_raw_mkRaw (m p v : List Char)
    (hdrs : List (List Char × List Char)) (body : List Char)
    (hm : m ≠ []) (hmw : noWhitespace m)
    (hp : p ≠ []) (hpw : noWhitespace p)
    (hv : v ≠ []) (hvw : noWhitespace v)
    (hh : ∀ kv ∈ hdrs,
      hasColonSpace kv.1 = false ∧ '\n' ∉ kv.1 ∧ '\n' ∉ kv.2)
    (hb1 : hasCRLF body = false) (hb2 : body.getLast? ≠ some '\n') :
    HttpRequest.from_raw (mkRaw m p v hdrs body) =
      { method := m, path := p, version := v, headers := hdrs,
        body := body } := by
  have hreq := requestLine_no_lf m p v hmw hpw hvw
  have hh' : ∀ kv ∈ hdrs, '\n' ∉ kv.1 ∧ '\n' ∉ kv.2 :=
    fun kv hkv => ⟨(hh kv hkv).2.1, (hh kv hkv).2.2⟩
  have hlines := rustLines_mkRaw m p v hdrs body hreq hh'
  have hsw := splitWhitespace_three m p v hm hmw hp hpw hv hvw
  have hph := parseHeadersAux_lines hdrs [] (rustLines body)
    (fun kv hkv => (hh kv hkv).1)
  have hjn := joinNL_rustLines body hb1 hb2
  simp only [HttpRequest.from_raw, hlines, List.headD_cons, List.drop_succ_cons,
    List.drop_zero, hsw, hph, List.nil_append, hjn, List.getD]
  simp [hjn]

theorem digitOf_ne_lf (d : Nat) : digitOf d ≠ '\n' := by
  unfold digitOf
  have h10 : d % 10 < 10 := Nat.mod_lt _ (by norm_num)
  generalize hk : d % 10 = k at h10 ⊢
  interval_cases k <;> decide

theorem natDigitsAux_no_lf (fuel : Nat) : ∀ n, '\n' ∉ natDigitsAux fuel n := by
  induction fuel with
  | zero =>
    intro n
    simp [natDigitsAux]
  | succ fuel ih =>
    intro n hmem
    unfold natDigitsAux at hmem
    by_cases h : n < 10
    · rw [if_pos h] at hmem
      exact digitOf_ne_lf n (List.mem_singleton.mp hmem).symm
    · rw [if_neg h] at hmem
      rcases List.mem_append.mp hmem with h1 | h1
      · exact ih (n / 10) h1
      · exact digitOf_ne_lf (n % 10) (List.mem_singleton.mp h1).symm

theorem natDigits_no_lf (n : Nat) : '\n' ∉ natDigits n :=
  natDigitsAux_no_lf (n + 1) n

theorem no_lf_append (a b : List Char) (ha : '\n' ∉ a) (hb : '\n' ∉ b) :
    '\n' ∉ a ++ b := by
  intro hmem
  rcases List.mem_append.mp hmem with h | h
  exacts [ha h, hb h]

/-! Helper lemmas on the thread-pool model -/

theorem submitAll_spec (jobs : List Nat) :
    ∀ s : PoolState,
      submitAll jobs s = { queue := s.queue ++ jobs, executed := s.executed } := by
  induction jobs with
  | nil =>
    intro s
    simp [submitAll]
  | cons j jobs ih =>
    intro s
    show submitAll jobs (s.execute j) = _
    rw [ih (s.execute j)]
    simp [PoolState.execute]

theorem runSteps_cons (w : Nat) (ws : List Nat) (s : PoolState) :
    runSteps (w :: ws) s = runSteps ws (workerStep w s) := rfl

theorem runSteps_invariant (ws : List Nat) :
    ∀ s : PoolState,
      (runSteps ws s).executed.map Prod.snd ++ (runSteps ws s).queue =
        s.executed.map Prod.snd ++ s.queue := by
  induction ws with
  | nil =>
    intro s
    rfl
  | cons w ws ih =>
    intro s
    rw [runSteps_cons, ih (workerStep w s)]
    cases hq : s.queue with
    | nil => simp [workerStep, hq]
    | cons j rest => simp [workerStep, hq]

theorem runSteps_drains (ws : List Nat) :
    ∀ s : PoolState, s.queue.length ≤ ws.length →
      (runSteps ws s).queue = [] := by
  induction ws with
  | nil =>
    intro s h
    have hnil : s.queue = [] :=
      List.eq_nil_of_length_eq_zero (Nat.le_zero.mp h)
    simpa [runSteps] using hnil
  | cons w ws ih =>
    intro s h
    rw [runSteps_cons]
    cases hq : s.queue with
    | nil =>
      apply ih
      simp [workerStep, hq]
    | cons j rest =>
      rw [hq] at h
      apply ih
      simp only [workerStep, hq]
      simp at h ⊢
      omega

/-! Claim theorems -/

/-- Claim C1, counterexample: the claim says `from_raw` recovers BODY
verbatim for every well-formed request of the given shape, but for the
well-formed request `GET / HTTP/1.1\r\nHost: x\r\n\r\na\r\nb` (whose BODY is
`a\r\nb`) the parsed body is `a\nb`: the CRLF inside the body is normalized
to LF by the line-split-and-rejoin, so the body is not recovered
verbatim. -/
theorem C1_parse_verbatim_counterexample :
    (HttpRequest.from_raw (mkRaw "GET".data "/".data "HTTP/1.1".data
      [("Host".data, "x".data)] "a\r\nb".data)).body = "a\nb".data ∧
    "a\nb".data ≠ "a\r\nb".data := by
  constructor
  · decide
  · decide

/-- Claim C1, amended: for every well-formed raw request
`METHOD PATH VERSION\r\nKey: Value\r\n…\r\n\r\nBODY` in which METHOD, PATH
and VERSION are nonempty and whitespace-free, each header key contains no
`": "` and no header key or value contains a line feed, and BODY contains no
CRLF sequence and does not end in a newline, `HttpRequest::from_raw` returns
exactly METHOD, PATH, VERSION, exactly the given header pairs (with lookup
returning the last occurrence on duplicate keys), and BODY verbatim. -/
theorem C1_parse_roundtrip_amended (m p v : List Char)
    (hdrs : List (List Char × List Char)) (body : List Char)
    (hm : m ≠ []) (hmw : noWhitespace m)
    (hp : p ≠ []) (hpw : noWhitespace p)
    (hv : v ≠ []) (hvw : noWhitespace v)
    (hh : ∀ kv ∈ hdrs,
      hasColonSpace kv.1 = false ∧ '\n' ∉ kv.1 ∧ '\n' ∉ kv.2)
    (hb1 : hasCRLF body = false) (hb2 : body.getLast? ≠ some '\n') :
    (HttpRequest.from_raw (mkRaw m p v hdrs body)).method = m ∧
    (HttpRequest.from_raw (mkRaw m p v hdrs body)).path = p ∧
    (HttpRequest.from_raw (mkRaw m p v hdrs body)).version = v ∧
    (HttpRequest.from_raw (mkRaw m p v hdrs body)).headers = hdrs ∧
    (HttpRequest.from_raw (mkRaw m p v hdrs body)).body = body ∧
    (∀ pre key value suf, hdrs = pre ++ (key, value) :: suf →
      (∀ kv ∈ suf, kv.1 ≠ key) →
      findHeader (HttpRequest.from_raw (mkRaw m p v hdrs body)).headers key =
        some value) := by
  have h := from_raw_mkRaw m p v hdrs body hm hmw hp hpw hv hvw hh hb1 hb2
  rw [h]
  refine ⟨rfl, rfl, rfl, rfl, rfl, ?_⟩
  intro pre key value suf hsplit hlast
  show findHeader hdrs key = some value
  rw [hsplit]
  exact findHeader_last_wins pre suf key value hlast

/-- Claim C1, witness: the amended round-trip theorem applied to a concrete
request with a duplicated header key. -/
theorem C1_parse_roundtrip_witness :
    (HttpRequest.from_raw (mkRaw "GET".data "/index".data "HTTP/1.1".data
      [("Host".data, "a".data), ("X".data, "1".data), ("Host".data, "b".data)]
      "hello".data)).method = "GET".data ∧
    (HttpRequest.from_raw (mkRaw "GET".data "/index".data "HTTP/1.1".data
      [("Host".data, "a".data), ("X".data, "1".data), ("Host".data, "b".data)]
      "hello".data)).path = "/index".data ∧
    (HttpRequest.from_raw (mkRaw "GET".data "/index".data "HTTP/1.1".data
      [("Host".data, "a".data), ("X".data, "1".data), ("Host".data, "b".data)]
      "hello".data)).headers =
        [("Host".data, "a".data), ("X".data, "1".data),
          ("Host".data, "b".data)] ∧
    (HttpRequest.from_raw (mkRaw "GET".data "/index".data "HTTP/1.1".data
      [("Host".data, "a".data), ("X".data, "1".data), ("Host".data, "b".data)]
      "hello".data)).body = "hello".data ∧
    findHeader (HttpRequest.from_raw (mkRaw "GET".data "/index".data
      "HTTP/1.1".data
      [("Host".data, "a".data), ("X".data, "1".data), ("Host".data, "b".data)]
      "hello".data)).headers "Host".data = some "b".data := by
  have h := C1_parse_roundtrip_amended "GET".data "/index".data
    "HTTP/1.1".data
    [("Host".data, "a".data), ("X".data, "1".data), ("Host".data, "b".data)]
    "hello".data (by decide) (by decide) (by decide) (by decide) (by decide)
    (by decide) (by decide) (by decide) (by decide)
  refine ⟨h.1, h.2.1, h.2.2.2.1, h.2.2.2.2.1, ?_⟩
  exact h.2.2.2.2.2 [("Host".data, "a".data), ("X".data, "1".data)]
    "Host".data "b".data [] (by decide) (by decide)

/-- Claim C2: `format_response` produces exactly
`HTTP/1.1 <status>\r\nContent-Length: <byte-len>\r\nContent-Type: <type>\r\n\r\n<body>`
where Content-Length is the byte length of the body; moreover (for CR/LF-free
status and content type) the serialized response splits into exactly the
status line, the Content-Length line, the Content-Type line — in that
order — and a blank line before the body: no other header is emitted. -/
theorem C2_format_response (status body ctype : List Char) :
    format_response status body ctype =
      "HTTP/1.1 ".data ++ status ++ "\r\nContent-Length: ".data ++
        natDigits (utf8Len body) ++ "\r\nContent-Type: ".data ++ ctype ++
        "\r\n\r\n".data ++ body ∧
    ('\n' ∉ status → '\n' ∉ ctype →
      rustLines (format_response status body ctype) =
        ("HTTP/1.1 ".data ++ status) ::
          ("Content-Length: ".data ++ natDigits (utf8Len body)) ::
            ("Content-Type: ".data ++ ctype) :: [] :: rustLines body) := by
  constructor
  · rfl
  · intro hstatus hctype
    have d2 : ("\r\nContent-Length: ".data : List Char) =
        '\r' :: '\n' :: "Content-Length: ".data := rfl
    have d3 : ("\r\nContent-Type: ".data : List Char) =
        '\r' :: '\n' :: "Content-Type: ".data := rfl
    have d4 : ("\r\n\r\n".data : List Char) =
        '\r' :: '\n' :: '\r' :: '\n' :: [] := rfl
    have e : format_response status body ctype =
        ("HTTP/1.1 ".data ++ status) ++ '\r' :: '\n' ::
          (("Content-Length: ".data ++ natDigits (utf8Len body)) ++
            '\r' :: '\n' ::
              (("Content-Type: ".data ++ ctype) ++ '\r' :: '\n' ::
                ('\r' :: '\n' :: body))) := by
      unfold format_response
      rw [d2, d3, d4]
      simp [List.append_assoc]
    have h1 : '\n' ∉ "HTTP/1.1 ".data ++ status :=
      no_lf_append _ _ (by decide) hstatus
    have h2 : '\n' ∉ "Content-Length: ".data ++ natDigits (utf8Len body) :=
      no_lf_append _ _ (by decide) (natDigits_no_lf (utf8Len body))
    have h3 : '\n' ∉ "Content-Type: ".data ++ ctype :=
      no_lf_append _ _ (by decide) hctype
    rw [e, rustLines_line _ _ h1, rustLines_line _ _ h2,
      rustLines_line _ _ h3,
      show rustLines ('\r' :: '\n' :: body) = [] :: rustLines body from
        rustLines_line [] body (by simp)]

/-- Claim C2, witness: the serialization shape at a concrete response. -/
theorem C2_format_response_witness :
    rustLines (format_response "200 Ok".data "abc".data "text/html".data) =
      ("HTTP/1.1 ".data ++ "200 Ok".data) ::
        ("Content-Length: ".data ++ natDigits (utf8Len "abc".data)) ::
          ("Content-Type: ".data ++ "text/html".data) ::
            [] :: rustLines "abc".data :=
  (C2_format_response "200 Ok".data "abc".data "text/html".data).2
    (by decide) (by decide)

/-- Claim C3: in the queue model of the pool (an mpsc channel whose receiving
end is taken under a mutex, so a dequeue is atomic), submitting N distinct
jobs to a pool of K workers (K < N) and then running any schedule of worker
dequeue attempts that is long enough drains the queue, executes exactly the
submitted jobs in some order, and executes each job exactly once, recorded
with exactly one (worker, job) execution record: no job is lost, duplicated,
or run by two workers. -/
theorem C3_pool_exactly_once (jobs ws : List Nat) (K : Nat)
    (hnodup : jobs.Nodup) (_hK : 0 < K) (_hKN : K < jobs.length)
    (_hws : ∀ w ∈ ws, w < K) (hlen : jobs.length ≤ ws.length) :
    (runSteps ws (submitAll jobs initialPool)).queue = [] ∧
    (runSteps ws (submitAll jobs initialPool)).executed.map Prod.snd = jobs ∧
    ∀ j ∈ jobs, ∃! r,
      r ∈ (runSteps ws (submitAll jobs initialPool)).executed ∧ r.2 = j := by
  have hsub : submitAll jobs initialPool =
      { queue := jobs, executed := [] } := by
    rw [submitAll_spec jobs initialPool]
    simp [initialPool]
  have hq : (runSteps ws (submitAll jobs initialPool)).queue = [] := by
    apply runSteps_drains
    rw [hsub]
    simpa using hlen
  have hinv := runSteps_invariant ws (submitAll jobs initialPool)
  have hsubq : (submitAll jobs initialPool).queue = jobs := by rw [hsub]
  have hsube : (submitAll jobs initialPool).executed = [] := by rw [hsub]
  rw [hq, hsubq, hsube] at hinv
  have hexec : (runSteps ws (submitAll jobs initialPool)).executed.map
      Prod.snd = jobs := by
    simpa using hinv
  refine ⟨hq, hexec, ?_⟩
  intro j hj
  have hmem : j ∈ (runSteps ws (submitAll jobs initialPool)).executed.map
      Prod.snd := by
    rw [hexec]
    exact hj
  rcases List.mem_map.mp hmem with ⟨r, hr, hrj⟩
  refine ⟨r, ⟨hr, hrj⟩, ?_⟩
  rintro r' ⟨hr', hrj'⟩
  have hnd : ((runSteps ws (submitAll jobs initialPool)).executed.map
      Prod.snd).Nodup := by
    rw [hexec]
    exact hnodup
  exact List.inj_on_of_nodup_map hnd hr' hr (by rw [hrj', hrj])

/-- Claim C3, witness: three jobs on a two-worker pool with an interleaved
schedule. -/
theorem C3_pool_exactly_once_witness :
    (runSteps [0, 1, 0] (submitAll [10, 11, 12] initialPool)).queue = [] ∧
    (runSteps [0, 1, 0] (submitAll [10, 11, 12] initialPool)).executed.map
      Prod.snd = [10, 11, 12] := by
  have h := C3_pool_exactly_once [10, 11, 12] [0, 1, 0] 2 (by decide)
    (by decide) (by decide) (by decide) (by decide)
  exact ⟨h.1, h.2.1⟩

/-- Claim C4: every request whose path starts with `/api/` is handled by the
JSON sub-router and never reaches the filesystem lookup (the result does not
depend on the filesystem); `/api/hello` gets the fixed JSON 200 and every
other `/api/`-prefixed path the fixed JSON 404. -/
theorem C4_api_router (fs : FileSystem) (request : HttpRequest)
    (hpre : "/api/".data.isPrefixOf request.path = true) :
    handle_request fs request = handle_api_request request ∧
    (request.path = "/api/hello".data →
      handle_request fs request =
        format_response "200 Ok".data "\x7b\"message\":\"Hello ,Api\"\x7d".data
          "application/json".data) ∧
    (request.path ≠ "/api/hello".data →
      handle_request fs request =
        format_response "404 Not Found".data "\x7b\"error\":\"Not found\"\x7d".data
          "application/json".data) := by
  have h1 : handle_request fs request = handle_api_request request := by
    simp [handle_request, hpre]
  refine ⟨h1, ?_, ?_⟩ <;> intro hp <;> rw [h1] <;>
    simp [handle_api_request, hp]

/-- Claim C4, witness: the JSON sub-router on `/api/hello` and on another
`/api/`-prefixed path. -/
theorem C4_api_router_witness :
    handle_request publicFs
      (HttpRequest.from_raw "GET /api/hello HTTP/1.1\r\n\r\n".data) =
      format_response "200 Ok".data "\x7b\"message\":\"Hello ,Api\"\x7d".data
        "application/json".data ∧
    handle_request publicFs
      (HttpRequest.from_raw "GET /api/nope HTTP/1.1\r\n\r\n".data) =
      format_response "404 Not Found".data "\x7b\"error\":\"Not found\"\x7d".data
        "application/json".data := by
  constructor
  · exact (C4_api_router publicFs
      (HttpRequest.from_raw "GET /api/hello HTTP/1.1\r\n\r\n".data)
      (by decide)).2.1 (by decide)
  · exact (C4_api_router publicFs
      (HttpRequest.from_raw "GET /api/nope HTTP/1.1\r\n\r\n".data)
      (by decide)).2.2 (by decide)

/-- Claim C5: routing is a function of the request path only — with the
filesystem state fixed, two requests with equal paths (whatever their
methods, headers and bodies) get byte-identical responses, so repeated calls
on the same path are deterministic and idempotent. -/
theorem C5_routing_path_only (fs : FileSystem) (r1 r2 : HttpRequest)
    (h : r1.path = r2.path) :
    handle_request fs r1 = handle_request fs r2 := by
  unfold handle_request handle_api_request resolvedPath
  rw [h]

/-- Claim C5, witness: a GET with headers and body and a bare POST on the
same path produce the same response bytes. -/
theorem C5_routing_path_only_witness :
    handle_request publicFs
      (HttpRequest.from_raw "GET /x HTTP/1.1\r\nA: b\r\n\r\nbody".data) =
      handle_request publicFs
        (HttpRequest.from_raw "POST /x HTTP/2\r\n\r\n".data) :=
  C5_routing_path_only publicFs _ _ (by decide)

/-- Claim C6: when no blank line terminates the header section, the parsed
body is empty and no error occurs; every non-header-shaped line is silently
skipped, the headers being exactly the `": "`-splittable lines after the
request line. -/
theorem C6_no_blank_line (raw : List Char)
    (h : ∀ l ∈ (rustLines raw).drop 1, l ≠ []) :
    (HttpRequest.from_raw raw).body = [] ∧
    (HttpRequest.from_raw raw).headers =
      ((rustLines raw).drop 1).filterMap splitOnceColonSpace := by
  have key := parseHeadersAux_no_blank ((rustLines raw).drop 1) [] h
  rw [List.drop_one] at key
  simp [HttpRequest.from_raw, key, joinNL]

/-- Claim C6, witness: a request with a header line, a garbage line and no
blank-line terminator. -/
theorem C6_no_blank_line_witness :
    (HttpRequest.from_raw "GET / HTTP/1.1\r\nHost: x\r\njunk line".data).body
      = [] ∧
    (HttpRequest.from_raw "GET / HTTP/1.1\r\nHost: x\r\njunk line".data).headers
      = ((rustLines "GET / HTTP/1.1\r\nHost: x\r\njunk line".data).drop 1).filterMap
          splitOnceColonSpace :=
  C6_no_blank_line "GET / HTTP/1.1\r\nHost: x\r\njunk line".data (by decide)

/-- Claim C7: for the request `GET / HTTP/1.1\r\n\r\n` (with the spec-modelled
`public/index.html` default document) the served response is the 200 Ok
rendering of the welcome page: it starts with `HTTP/1.1 200 Ok` and its body
is `Welcome to the Home Page!`. -/
theorem C7_root_scenario :
    handle_client publicFs (some "GET / HTTP/1.1\r\n\r\n".data) =
      some (format_response "200 Ok".data indexHtml "text/html".data) ∧
    "HTTP/1.1 200 Ok".data.isPrefixOf
      (handle_request publicFs
        (HttpRequest.from_raw "GET / HTTP/1.1\r\n\r\n".data)) = true ∧
    handle_request publicFs
      (HttpRequest.from_raw "GET / HTTP/1.1\r\n\r\n".data) =
      ("HTTP/1.1 200 Ok\r\nContent-Length: 25\r\nContent-Type: " ++
        "text/html\r\n\r\nWelcome to the Home Page!").data := by
  refine ⟨?_, ?_, ?_⟩ <;> decide

/-- Claim C8: when the socket read fails, the connection handler writes
nothing at all: no response bytes are produced for that connection. -/
theorem C8_read_failure_silent (fs : FileSystem) :
    handle_client fs none = none := rfl

/-- Claim C9: for a non-`/api/` path whose resolved file exists but whose
read fails, the router answers with the fixed 404 page — the same response a
missing file gets — and never surfaces the read error distinctly. -/
theorem C9_fs_read_error_404 (fs fs2 : FileSystem) (request : HttpRequest)
    (hnapi : "/api/".data.isPrefixOf request.path = false)
    (hex : fs.pathExists (resolvedPath request.path) = true)
    (hread : fs.read_to_string (resolvedPath request.path) = none)
    (hmiss : fs2.pathExists (resolvedPath request.path) = false) :
    handle_request fs request = notFoundHtmlResponse ∧
    handle_request fs request = handle_request fs2 request := by
  have h1 : handle_request fs request = notFoundHtmlResponse := by
    simp [handle_request, hnapi, hex, hread]
  have h2 : handle_request fs2 request = notFoundHtmlResponse := by
    simp [handle_request, hnapi, hmiss]
  exact ⟨h1, h1.trans h2.symm⟩

/-- Claim C9, witness: a filesystem where the file exists but reading fails,
against one where it is missing. -/
theorem C9_fs_read_error_404_witness :
    handle_request
      { pathExists := fun _ => true, read_to_string := fun _ => none }
      (HttpRequest.from_raw "GET /x HTTP/1.1\r\n\r\n".data) =
      notFoundHtmlResponse ∧
    handle_request
      { pathExists := fun _ => true, read_to_string := fun _ => none }
      (HttpRequest.from_raw "GET /x HTTP/1.1\r\n\r\n".data) =
      handle_request
        { pathExists := fun _ => false, read_to_string := fun _ => none }
        (HttpRequest.from_raw "GET /x HTTP/1.1\r\n\r\n".data) :=
  C9_fs_read_error_404
    { pathExists := fun _ => true, read_to_string := fun _ => none }
    { pathExists := fun _ => false, read_to_string := fun _ => none }
    (HttpRequest.from_raw "GET /x HTTP/1.1\r\n\r\n".data)
    (by decide) (by rfl) (by rfl) (by rfl)

/-- Claim C10: the fixed 404 response of the filesystem router carries the
literal content type `text/htlm` — the misspelling in the source — and not
`text/html`. -/
theorem C10_not_found_content_type (fs : FileSystem) (request : HttpRequest)
    (hnapi : "/api/".data.isPrefixOf request.path = false)
    (hfail : fs.pathExists (resolvedPath request.path) = false ∨
      fs.read_to_string (resolvedPath request.path) = none) :
    handle_request fs request =
      format_response "404 Not Found".data
        "<h1>404 - Page Not Found </h1>".data "text/htlm".data ∧
    ("text/htlm".data : List Char) ≠ "text/html".data := by
  constructor
  · rcases hfail with h | h
    · simp [handle_request, hnapi, h, notFoundHtmlResponse]
    · by_cases he : fs.pathExists (resolvedPath request.path)
      · simp [handle_request, hnapi, he, h, notFoundHtmlResponse]
      · simp [handle_request, hnapi, he, notFoundHtmlResponse]
  · decide

/-- Claim C10, witness: the misspelled content type on a missing path. -/
theorem C10_not_found_content_type_witness :
    handle_request publicFs
      (HttpRequest.from_raw "GET /missing HTTP/1.1\r\n\r\n".data) =
      format_response "404 Not Found".data
        "<h1>404 - Page Not Found </h1>".data "text/htlm".data :=
  (C10_not_found_content_type publicFs
    (HttpRequest.from_raw "GET /missing HTTP/1.1\r\n\r\n".data)
    (by decide) (Or.inl (by decide))).1

end SimpleHttpServer
